import Mathlib

set_option autoImplicit false

/-!
Verification of the boid flocking simulation, proximity scanner,
interactable registry and procedural terrain generator of the underwater
exploration repository.  The definitions below are shallow embeddings of
the TypeScript source: `FishSchool.tsx` (proximity check, boid update),
the player controller's closest-interactable loop, and
`utils/worldGen.ts` (`generateTerrain`).  Machine floats are modelled by
`ℚ` where the code only adds, multiplies and compares, and by `ℝ` where
square roots (vector lengths) are taken; `Math.random()` is modelled by
an explicit stream of draws, and `Math.sin`/`Math.cos`/`Math.PI` by
oracle functions carried in an environment record.
-/

namespace Scanner

/-- The two observable scan events: `onScan(species)` (scan started) and
`onScan(null)` (scan ended), from `FishSchool.tsx` lines 99-107. -/
inductive ScanEvent where
  | started : ScanEvent
  | ended : ScanEvent
deriving DecidableEq

/-- One frame of the proximity check with hysteresis, from
`FishSchool.tsx` lines 100-107: entering below distance 10 raises
scan-started, leaving above 15 raises scan-ended, otherwise the flag and
the handler are untouched.  Returns the new scanned flag and the event
emitted this frame, if any. -/
def scanStep (scanned : Bool) (dist : ℚ) : Bool × Option ScanEvent :=
  if dist < 10 ∧ scanned = false then (true, some ScanEvent.started)
  else if 15 < dist ∧ scanned = true then (false, some ScanEvent.ended)
  else (scanned, none)

/-- Feeding a per-frame distance sequence through the scanner, recording
the event (or `none`) emitted at each frame. -/
def scanRun (scanned : Bool) : List ℚ → List (Option ScanEvent)
  | [] => []
  | d :: rest =>
    let s := scanStep scanned d
    s.2 :: scanRun s.1 rest

end Scanner

namespace Inter

/-- Interactable identifiers: the source derives them as
`mech_${x}_${z}` / `chest_${x}_${z}` from the grid coordinates; distinct
coordinate pairs render to distinct strings, so the identifier is
faithfully modelled as the type prefix together with the two grid
coordinates. -/
inductive IId where
  | mech : ℚ → ℚ → IId
  | chest : ℚ → ℚ → IId
deriving DecidableEq

/-- The grid coordinates an identifier was derived from. -/
def IId.coords : IId → ℚ × ℚ
  | IId.mech x z => (x, z)
  | IId.chest x z => (x, z)

/-- The two interactable types of `types.ts`. -/
inductive IType where
  | chest : IType
  | mechanism : IType
deriving DecidableEq

/-- A placed world position (x, y, z). -/
abbrev Position : Type := ℚ × ℚ × ℚ

/-- `InteractableItem` of `types.ts`: identifier, type, world position,
rotation. -/
structure Item where
  id : IId
  ty : IType
  pos : Position
  rot : ℚ
deriving DecidableEq

/-- Squared distance from the player position to an item, exactly the
`dx*dx + dy*dy + dz*dz` of the player controller's interactables loop. -/
def sqDistTo (p : Position) (it : Item) : ℚ :=
  (p.1 - it.pos.1) * (p.1 - it.pos.1)
    + (p.2.1 - it.pos.2.1) * (p.2.1 - it.pos.2.1)
    + (p.2.2 - it.pos.2.2) * (p.2.2 - it.pos.2.2)

/-- The player controller's interactables loop: already-activated items
are skipped, and an item strictly closer than the current minimum
(seeded with the squared interaction range 4.0 * 4.0 = 16) becomes the
new closest candidate. -/
def closestLoop (p : Position) (acts : List IId) :
    List Item → Option Item × ℚ → Option Item × ℚ
  | [], s => s
  | it :: rest, (best, m) =>
    if it.id ∈ acts then closestLoop p acts rest (best, m)
    else if sqDistTo p it < m then closestLoop p acts rest (some it, sqDistTo p it)
    else closestLoop p acts rest (best, m)

/-- The closest-interactable query: run the loop over all items starting
from no candidate and squared range 16, and return the candidate. -/
def closestInteractable (p : Position) (items : List Item) (acts : List IId) :
    Option Item :=
  (closestLoop p acts items (none, 16)).1

end Inter

namespace WorldGen

open Inter

/-- `BLOCK_SIZE = 0.15` of `worldGen.ts`. -/
def B : ℚ := 3 / 20

/-- The oracles the generator consumes: the stream of `Math.random()`
draws (indexed by how many draws happened before), and the library
functions `Math.sin`, `Math.cos` and the constant `Math.PI`, which the
embedding treats as abstract real-valued (here rational-valued)
functions.  All terrain theorems hold for every environment. -/
structure Env where
  rng : ℕ → ℚ
  msin : ℚ → ℚ
  mcos : ℚ → ℚ
  mpi : ℚ

/-- Categories of `MapPOI.type` in `types.ts`. -/
inductive POIType where
  | ruin : POIType
  | coral : POIType
  | lamp : POIType
  | kelp : POIType
  | chest : POIType
  | mechanism : POIType
deriving DecidableEq

/-- A `MapPOI` record: x/z position, category, optional display color
(the palette hex the css string is derived from). -/
structure POI where
  x : ℚ
  z : ℚ
  ty : POIType
  color : Option ℕ
deriving DecidableEq

/-- The coral color palette of `worldGen.ts` (second version, nine
entries). -/
def coralPalette : List ℕ :=
  [0xf472b6, 0xa78bfa, 0x22d3ee, 0x34d399, 0xfb7185,
   0xffb7b2, 0xffdac1, 0xe2f0cb, 0xb5ead7]

/-- The r, g, b components `THREE.Color.setHex` extracts from a hex
value, each scaled into `[0, 1]`. -/
def colorComponents (hex : ℕ) : List ℚ :=
  [((hex / 65536 % 256 : ℕ) : ℚ) / 255,
   ((hex / 256 % 256 : ℕ) : ℚ) / 255,
   ((hex % 256 : ℕ) : ℚ) / 255]

/-- Everything one grid cell pushes onto the generator's output arrays,
in push order.  `generateTerrain` is the concatenation of these over the
cells in loop order. -/
structure Contrib where
  sand : List Position := []
  stone : List Position := []
  runes : List Position := []
  lamps : List Position := []
  kelp : List Position := []
  grass : List Position := []
  coral : List Position := []
  coralColors : List ℚ := []
  starfish : List Position := []
  flowers : List Position := []
  columns : List Position := []
  anemones : List Position := []
  smallRocks : List Position := []
  inter : List Item := []
  pois : List POI := []

/-- A vertical stack of `n` blocks above the surface at `(px, pz)`:
block `h` sits at height `surf + h * B`. -/
def heightList (surf px pz : ℚ) (n : ℕ) : List Position :=
  (List.range n).map fun (h : ℕ) => ((px, surf + (h : ℚ) * B, pz) : Position)

/-- The blocks of a rune monolith the per-block draw sent to the stone
list (`Math.random() > 0.8` false), keeping loop order. -/
def monolithStone (env : Env) (c : ℕ) (px surf pz : ℚ) (n : ℕ) : List Position :=
  ((List.range n).filter fun h => env.rng (c + h) ≤ 4/5).map
    fun (h : ℕ) => ((px, surf + (h : ℚ) * B, pz) : Position)

/-- The blocks of a rune monolith the per-block draw sent to the runes
list (`Math.random() > 0.8` true), keeping loop order. -/
def monolithRunes (env : Env) (c : ℕ) (px surf pz : ℚ) (n : ℕ) : List Position :=
  ((List.range n).filter fun h => 4/5 < env.rng (c + h)).map
    fun (h : ℕ) => ((px, surf + (h : ℚ) * B, pz) : Position)

/-- The ruins/pillars branch of the cascade (`worldGen.ts` lines
270-304), entered when `rand > 0.9996`-style threshold `rand > 0.999`
and `vegDensity > -0.5` hold: a coin flip picks a broken column (pillar)
or a rune monolith; the monolith distributes its blocks over the stone
and runes lists per-block, puts a lamp on top, records a ruin point of
interest, and with chance 0.3 also spawns a mechanism interactable
beside it. -/
def ruinsBranch (env : Env) (c : ℕ) (x z px pz surf : ℚ) : ℕ × Contrib :=
  if (1/2 : ℚ) < env.rng (c + 1) then
    (c + 3,
     { columns := heightList surf px pz (⌊env.rng (c + 2) * 10⌋ + 5).toNat })
  else
    if (7/10 : ℚ) < env.rng (c + 3 + (⌊env.rng (c + 2) * 10⌋ + 5).toNat) then
      (c + 3 + (⌊env.rng (c + 2) * 10⌋ + 5).toNat + 2,
       { stone := monolithStone env (c + 3) px surf pz
           (⌊env.rng (c + 2) * 10⌋ + 5).toNat,
         runes := monolithRunes env (c + 3) px surf pz
           (⌊env.rng (c + 2) * 10⌋ + 5).toNat,
         lamps := [(px, surf + ((⌊env.rng (c + 2) * 10⌋ + 5 : ℤ) : ℚ) * B, pz)],
         inter := [{ id := IId.mech x z, ty := IType.mechanism,
                     pos := (px + 1/2, surf, pz + 1/2),
                     rot := env.rng (c + 3 + (⌊env.rng (c + 2) * 10⌋ + 5).toNat + 1)
                       * env.mpi * 2 }],
         pois := [⟨px, pz, POIType.ruin, none⟩,
                  ⟨px + 1/2, pz + 1/2, POIType.mechanism, none⟩] })
    else
      (c + 3 + (⌊env.rng (c + 2) * 10⌋ + 5).toNat + 1,
       { stone := monolithStone env (c + 3) px surf pz
           (⌊env.rng (c + 2) * 10⌋ + 5).toNat,
         runes := monolithRunes env (c + 3) px surf pz
           (⌊env.rng (c + 2) * 10⌋ + 5).toNat,
         lamps := [(px, surf + ((⌊env.rng (c + 2) * 10⌋ + 5 : ℤ) : ℚ) * B, pz)],
         pois := [⟨px, pz, POIType.ruin, none⟩] })

/-- The kelp branch (`worldGen.ts` lines 307-315): a stack of 4-23
blocks, and with chance 0.005 a kelp point of interest. -/
def kelpBranch (env : Env) (c : ℕ) (px pz surf : ℚ) : ℕ × Contrib :=
  if (199/200 : ℚ) < env.rng (c + 2) then
    (c + 3, { kelp := heightList surf px pz (⌊env.rng (c + 1) * 20⌋ + 4).toNat,
              pois := [⟨px, pz, POIType.kelp, none⟩] })
  else
    (c + 3, { kelp := heightList surf px pz (⌊env.rng (c + 1) * 20⌋ + 4).toNat })

/-- The treasure chest branch (`worldGen.ts` lines 318-327). -/
def chestBranch (env : Env) (c : ℕ) (x z px pz surf : ℚ) : ℕ × Contrib :=
  (c + 2, { inter := [{ id := IId.chest x z, ty := IType.chest,
                        pos := (px, surf, pz),
                        rot := env.rng (c + 1) * env.mpi * 2 }],
            pois := [⟨px, pz, POIType.chest, none⟩] })

/-- The coral branch (`worldGen.ts` lines 366-386): a random palette
color, a base block with a colored point of interest, and with chance
0.5 a stack of 1-3 further blocks, each block accompanied by its three
color components. -/
def coralBranch (env : Env) (c : ℕ) (px pz surf : ℚ) : ℕ × Contrib :=
  if (1/2 : ℚ) < env.rng (c + 2) then
    (c + 4,
     { coral := ((px, surf, pz) : Position) ::
         ((List.range (⌊env.rng (c + 3) * 3⌋ + 1).toNat).map
           fun (h : ℕ) => ((px, surf + ((h : ℚ) + 1) * B, pz) : Position)),
       coralColors := (((px, surf, pz) : Position) ::
         ((List.range (⌊env.rng (c + 3) * 3⌋ + 1).toNat).map
           fun (h : ℕ) => ((px, surf + ((h : ℚ) + 1) * B, pz) : Position))).flatMap
         fun _ => colorComponents
           (coralPalette.getD (⌊env.rng (c + 1) * 9⌋).toNat 0),
       pois := [⟨px, pz, POIType.coral,
                 some (coralPalette.getD (⌊env.rng (c + 1) * 9⌋).toNat 0)⟩] })
  else
    (c + 3,
     { coral := [(px, surf, pz)],
       coralColors := ([((px, surf, pz) : Position)]).flatMap
         fun _ => colorComponents
           (coralPalette.getD (⌊env.rng (c + 1) * 9⌋).toNat 0),
       pois := [⟨px, pz, POIType.coral,
                 some (coralPalette.getD (⌊env.rng (c + 1) * 9⌋).toNat 0)⟩] })

/-- The placement cascade of one cell (`worldGen.ts` lines 269-386),
evaluated after the floor was placed, over the already-computed physical
coordinates `px`, `pz`, the surface height `surf`, the cell's uniform
draw `rand` and the vegetation density `veg`: the first matching branch
fully claims the cell (`continue` in the source), later branches are
skipped.  Returns the updated draw counter and the cell's non-floor
contribution. -/
def cascade (env : Env) (c : ℕ) (x z px pz surf rand veg : ℚ) : ℕ × Contrib :=
  if (999/1000 : ℚ) < rand ∧ (-(1/2) : ℚ) < veg then
    ruinsBranch env c x z px pz surf
  else if (3/5 : ℚ) < veg ∧ (47/50 : ℚ) < rand then
    kelpBranch env c px pz surf
  else if rand < (1/5000 : ℚ) ∧ veg < 0 then
    chestBranch env c x z px pz surf
  else if (3/10 : ℚ) < veg ∧ (17/20 : ℚ) < rand then
    (c + 1, { grass := [(px, surf, pz)] })
  else if rand < (1/50 : ℚ) ∧ veg < (1/5 : ℚ) then
    (c + 1, { smallRocks := [(px, surf, pz)] })
  else if (1/10 : ℚ) < rand ∧ rand < (21/200 : ℚ) ∧ (-(1/5) : ℚ) < veg then
    (c + 1, { anemones := [(px, surf, pz)] })
  else if rand < (3/500 : ℚ) ∧ veg < 0 then
    (c + 1, { starfish := [(px, surf - B * (2/5), pz)] })
  else if (2/5 : ℚ) < rand ∧ rand < (83/200 : ℚ) ∧ 0 < veg then
    (c + 1, { flowers := [(px, surf, pz)] })
  else if rand < (1/200 : ℚ) then
    coralBranch env c px pz surf
  else
    (c + 1, {})

/-- The two-octave stepped noise of the height field: the low-frequency
`sin(px*0.05)*cos(pz*0.05)` term plus the
`sin(px*0.15 + pz*0.1)*0.2` detail term. -/
def noiseOf (env : Env) (px pz : ℚ) : ℚ :=
  env.msin (px * (1/20)) * env.mcos (pz * (1/20))
    + env.msin (px * (3/20) + pz * (1/10)) * (1/5)

/-- The floor height of a cell, snapped to integer block steps:
`Math.floor((noise * 4 - 6) / BLOCK_SIZE) * BLOCK_SIZE`. -/
def pyOf (env : Env) (px pz : ℚ) : ℚ :=
  (⌊(noiseOf env px pz * 4 - 6) / B⌋ : ℤ) * B

/-- The vegetation density field `sin(px*0.1)*cos(pz*0.1)`. -/
def vegOf (env : Env) (px pz : ℚ) : ℚ :=
  env.msin (px * (1/10)) * env.mcos (pz * (1/10))

/-- One iteration of the `generateTerrain` double loop (`worldGen.ts`
lines 234-387): compute the physical coordinates and the stepped noise
height, place the floor block and its foundation block, then run the
placement cascade. -/
def processCell (env : Env) (c : ℕ) (x z : ℚ) : ℕ × Contrib :=
  let px := x * B
  let pz := z * B
  let py := pyOf env px pz
  let r := cascade env c x z px pz (py + B) (env.rng c) (vegOf env px pz)
  (r.1, { r.2 with sand := [(px, py, pz), (px, py - B, pz)] })

/-- `processCell` is the cascade at the cell's physical coordinates,
with the two floor blocks written into the sand field. -/
theorem processCell_snd (env : Env) (c : ℕ) (x z : ℚ) :
    (processCell env c x z).2
      = { (cascade env c x z (x * B) (z * B) (pyOf env (x * B) (z * B) + B)
            (env.rng c) (vegOf env (x * B) (z * B))).2 with
          sand := [(x * B, pyOf env (x * B) (z * B), z * B),
                   (x * B, pyOf env (x * B) (z * B) - B, z * B)] } :=
  rfl

/-- The x (or z) cell indices of the centered grid loop
`for (let x = -width/2; x < width/2; x++)`: `n` consecutive values
starting at `-n/2` for positive `n`, nothing for `n ≤ 0`. -/
def coords (n : ℤ) : List ℚ :=
  (List.range (max n 0).toNat).map fun (k : ℕ) => -(n : ℚ) / 2 + (k : ℚ)

/-- All cells of the double loop, outer x then inner z. -/
def cellList (w d : ℤ) : List (ℚ × ℚ) :=
  (coords w).product (coords d)

/-- Run `processCell` over the cells in loop order, threading the draw
counter, and record each cell's contribution beside its coordinates. -/
def runCells (env : Env) : ℕ → List (ℚ × ℚ) → List ((ℚ × ℚ) × Contrib)
  | _, [] => []
  | c, xz :: rest =>
    let r := processCell env c xz.1 xz.2
    (xz, r.2) :: runCells env r.1 rest

/-- The `TerrainData` record of `types.ts`. -/
structure TerrainData where
  sandInstances : List Position
  stoneInstances : List Position
  runeInstances : List Position
  lampInstances : List Position
  kelpInstances : List Position
  grassInstances : List Position
  coralInstances : List Position
  coralColors : List ℚ
  starfishInstances : List Position
  flowerInstances : List Position
  columnInstances : List Position
  anemoneInstances : List Position
  smallRockInstances : List Position
  interactables : List Item
  mapPOIs : List POI
deriving DecidableEq

/-- `generateTerrain(widthCount, depthCount)` of `worldGen.ts`: iterate
the centered grid, thread the random draw counter, and aggregate every
per-cell contribution in push order. -/
def generateTerrain (env : Env) (w d : ℤ) : TerrainData :=
  let rs := runCells env 0 (cellList w d)
  { sandInstances := rs.flatMap fun e => e.2.sand
    stoneInstances := rs.flatMap fun e => e.2.stone
    runeInstances := rs.flatMap fun e => e.2.runes
    lampInstances := rs.flatMap fun e => e.2.lamps
    kelpInstances := rs.flatMap fun e => e.2.kelp
    grassInstances := rs.flatMap fun e => e.2.grass
    coralInstances := rs.flatMap fun e => e.2.coral
    coralColors := rs.flatMap fun e => e.2.coralColors
    starfishInstances := rs.flatMap fun e => e.2.starfish
    flowerInstances := rs.flatMap fun e => e.2.flowers
    columnInstances := rs.flatMap fun e => e.2.columns
    anemoneInstances := rs.flatMap fun e => e.2.anemones
    smallRockInstances := rs.flatMap fun e => e.2.smallRocks
    interactables := rs.flatMap fun e => e.2.inter
    mapPOIs := rs.flatMap fun e => e.2.pois }

/-- The eleven voxel output lists the placement cascade can write to
(sand is unconditional floor and excluded), indexed for the pairwise
disjointness statement. -/
def ccat (k : Contrib) (i : Fin 11) : List Position :=
  [k.columns, k.stone, k.runes, k.lamps, k.kelp, k.grass,
   k.smallRocks, k.anemones, k.starfish, k.flowers, k.coral].get
    ⟨i.val, by simp⟩

/-- The same eleven categories read off the aggregated terrain data. -/
def catList (t : TerrainData) (i : Fin 11) : List Position :=
  [t.columnInstances, t.stoneInstances, t.runeInstances, t.lampInstances,
   t.kelpInstances, t.grassInstances, t.smallRockInstances,
   t.anemoneInstances, t.starfishInstances, t.flowerInstances,
   t.coralInstances].get ⟨i.val, by simp⟩

/-- The per-cell point-of-interest accounting the generator actually
implements: chest and mechanism interactables and coral occurrences
each append exactly one point of interest of their type, rune monoliths
(counted by their lamps) each append one ruin point of interest, and at
most one kelp point of interest is appended per cell. -/
def poiSpec (k : Contrib) : Prop :=
  ((k.pois.filter fun q => q.ty = POIType.chest).length
      = (k.inter.filter fun it => it.ty = IType.chest).length)
  ∧ ((k.pois.filter fun q => q.ty = POIType.mechanism).length
      = (k.inter.filter fun it => it.ty = IType.mechanism).length)
  ∧ ((k.pois.filter fun q => q.ty = POIType.ruin).length = k.lamps.length)
  ∧ ((k.pois.filter fun q => q.ty = POIType.coral).length
      = min 1 k.coral.length)
  ∧ (k.pois.filter fun q => q.ty = POIType.kelp).length ≤ 1

/-- The draw stream of the missing-point-of-interest counterexample: the
first cell rolls a ruins draw (0.9999) and a pillar coin (1), the second
cell rolls a kelp draw (0.95) whose point-of-interest draw (0) fails the
0.995 threshold. -/
def envPillarKelp : Env :=
  ⟨fun n => if n = 0 then 9999/10000 else if n = 1 then 1
    else if n = 3 then 19/20 else 0,
   fun _ => 1, fun _ => 1, 3⟩

/-- Union of the eleven cascade categories of one contribution. -/
def ccatAll (k : Contrib) : List Position :=
  k.columns ++ k.stone ++ k.runes ++ k.lamps ++ k.kelp ++ k.grass ++
    k.smallRocks ++ k.anemones ++ k.starfish ++ k.flowers ++ k.coral

end WorldGen

namespace Boids

/-- A three.js `Vector3`, with exact real components (machine floats are
modelled by `ℝ`; `Math.sqrt` by `Real.sqrt`, which forces these
definitions to be noncomputable). -/
structure V3 where
  x : ℝ
  y : ℝ
  z : ℝ

instance : Add V3 :=
  ⟨fun a b => ⟨a.x + b.x, a.y + b.y, a.z + b.z⟩⟩

instance : Sub V3 :=
  ⟨fun a b => ⟨a.x - b.x, a.y - b.y, a.z - b.z⟩⟩

instance : SMul ℝ V3 :=
  ⟨fun c v => ⟨c * v.x, c * v.y, c * v.z⟩⟩

instance : Zero V3 :=
  ⟨⟨0, 0, 0⟩⟩

/-- `Vector3.length()`. -/
noncomputable def len (v : V3) : ℝ :=
  Real.sqrt (v.x ^ 2 + v.y ^ 2 + v.z ^ 2)

/-- The `length || 1` guard of three.js `normalize`/`clampLength`: a
zero length (falsy in JavaScript) is replaced by 1. -/
noncomputable def jsOr1 (l : ℝ) : ℝ :=
  if l = 0 then 1 else l

/-- three.js `Vector3.normalize()`: `divideScalar(length || 1)`. -/
noncomputable def normalize (v : V3) : V3 :=
  (1 / jsOr1 (len v)) • v

/-- three.js `Vector3.clampLength(lo, hi)`:
`divideScalar(length || 1).multiplyScalar(max(lo, min(hi, length)))`. -/
noncomputable def clampLength (v : V3) (lo hi : ℝ) : V3 :=
  (max lo (min hi (len v)) / jsOr1 (len v)) • v

/-- three.js `a.distanceTo(b)`. -/
noncomputable def distTo (a b : V3) : ℝ :=
  len (a - b)

/-- The three behavior modes of `FishSpecies.behavior`. -/
inductive Behavior where
  | school : Behavior
  | solitary : Behavior
  | wander : Behavior

/-- Alignment weight per behavior (`FishSchool.tsx` lines 135-144). -/
noncomputable def alignW : Behavior → ℝ
  | Behavior.school => 1
  | Behavior.solitary => 1/10
  | Behavior.wander => 1/2

/-- Cohesion weight per behavior. -/
noncomputable def cohW : Behavior → ℝ
  | Behavior.school => 2
  | Behavior.solitary => 0
  | Behavior.wander => 4/5

/-- Separation weight per behavior. -/
noncomputable def sepW : Behavior → ℝ
  | Behavior.school => 13/10
  | Behavior.solitary => 3
  | Behavior.wander => 13/10

/-- Centering weight per behavior. -/
noncomputable def centW : Behavior → ℝ
  | Behavior.school => 1/2
  | Behavior.solitary => 1/10
  | Behavior.wander => 1/2

/-- One boid agent: position, velocity, acceleration accumulator and the
per-agent phase offset, all in the group's local space. -/
structure Boid where
  pos : V3
  vel : V3
  acc : V3
  phase : ℝ

/-- The per-group simulation inputs of one `useFrame` tick: behavior
mode, whether this group is the reactive jellyfish species, whether the
player is currently swimming, the player position in group-local space
(`camera.position - schoolCenter`), and the species' base speed. -/
structure Cfg where
  behavior : Behavior
  isJelly : Bool
  swimming : Bool
  player : V3
  speed : ℝ

/-- One neighbor of the inner `j` loop folded into the running
alignment/cohesion/separation sums and neighbor count.  A neighbor at
distance `d < 2.5` contributes its velocity, its position, and the away
vector `(me - other) / d`; at `d = 0` that division is `0/0`, a NaN in
the source, modelled as `none` poisoning the whole computation. -/
noncomputable def accumStep (me : Boid) (acc : Option (V3 × V3 × V3 × ℕ))
    (b : Boid) : Option (V3 × V3 × V3 × ℕ) :=
  acc.bind fun s =>
    let d := distTo me.pos b.pos
    if d < 5/2 then
      if d = 0 then none
      else some (s.1 + b.vel, s.2.1 + b.pos,
                 s.2.2.1 + (1/d) • (me.pos - b.pos), s.2.2.2 + 1)
    else some s

/-- The whole inner `j` loop over the other agents of the group. -/
noncomputable def accumulate (me : Boid) (others : List Boid) :
    Option (V3 × V3 × V3 × ℕ) :=
  others.foldl (accumStep me) (some (0, 0, 0, 0))

/-- The steering transform applied to each accumulated vector when at
least one neighbor was found:
`normalize().multiplyScalar(maxSpeed).sub(velocity).clampLength(0, maxForce)`. -/
noncomputable def steer (desired vel : V3) (s f : ℝ) : V3 :=
  clampLength ((s • normalize desired) - vel) 0 f

/-- The flocking acceleration of agent `i` (`FishSchool.tsx` lines
148-185): accumulate over the other agents, steer the three vectors when
`total > 0`, weight and add them to the acceleration, then add the
centering force if the agent is farther than 5 from the group origin.
`none` when the accumulation divided by a zero distance. -/
noncomputable def flockAccel (cfg : Cfg) (boids : List Boid) (i : ℕ)
    (me : Boid) : Option V3 :=
  (accumulate me (boids.eraseIdx i)).map fun s =>
    let t := s.2.2.2
    let f := cfg.speed * (1/10)
    let alv := if 0 < t then steer ((1 / (t : ℝ)) • s.1) me.vel cfg.speed f
      else s.1
    let cov := if 0 < t
      then steer (((1 / (t : ℝ)) • s.2.1) - me.pos) me.vel cfg.speed f
      else s.2.1
    let sev := if 0 < t then steer ((1 / (t : ℝ)) • s.2.2.1) me.vel cfg.speed f
      else s.2.2.1
    let a1 := me.acc + alignW cfg.behavior • alv + cohW cfg.behavior • cov
      + sepW cfg.behavior • sev
    let centerDir := (0 : V3) - me.pos
    let dC := len centerDir
    if 5 < dC then
      a1 + (centW cfg.behavior * (dC / 5)) •
        clampLength ((cfg.speed • normalize centerDir) - me.vel) 0 (f * 2)
    else a1

/-- The jellyfish reactive override (`FishSchool.tsx` lines 187-205):
within detection distance 12, a swimming player adds a strong
(5x-weighted) flee term away from the player; a stationary player adds a
1.5x-weighted follow term toward the player only while farther than 3,
and advances the phase offset.  Returns the new acceleration and phase. -/
noncomputable def jellyUpdate (cfg : Cfg) (me : Boid) (a : V3) : V3 × ℝ :=
  if cfg.isJelly then
    let d := distTo me.pos cfg.player
    if d < 12 then
      if cfg.swimming then
        (a + (5 : ℝ) • (cfg.speed • normalize (me.pos - cfg.player)), me.phase)
      else
        (if 3 < d
           then a + (3/2 : ℝ) • (cfg.speed • normalize (cfg.player - me.pos))
           else a,
         me.phase + 1/5)
    else (a, me.phase)
  else (a, me.phase)

/-- The integration step (`FishSchool.tsx` lines 207-210):
`position += velocity; velocity += acceleration;
velocity.clampLength(maxSpeed * 0.5, maxSpeed); acceleration.set(0,0,0)`. -/
noncomputable def integrate (speed : ℝ) (me : Boid) (a : V3) (ph : ℝ) : Boid :=
  { pos := me.pos + me.vel
    vel := clampLength (me.vel + a) (speed * (1/2)) speed
    acc := 0
    phase := ph }

/-- The full per-agent tick: flocking acceleration, jellyfish override,
integration; `none` when a division by zero (NaN) occurred. -/
noncomputable def tickAgent (cfg : Cfg) (boids : List Boid) (i : ℕ)
    (me : Boid) : Option Boid :=
  (flockAccel cfg boids i me).map fun a =>
    let j := jellyUpdate cfg me a
    integrate cfg.speed me j.1 j.2

/-- The outer `i` loop of one frame: agents are updated in place one
after the other, so later agents see the already-updated states of
earlier ones, exactly as the mutable source array does. -/
noncomputable def tickLoop (cfg : Cfg) : List ℕ → List Boid → Option (List Boid)
  | [], arr => some arr
  | i :: rest, arr =>
    match arr[i]? with
    | none => tickLoop cfg rest arr
    | some me =>
      match tickAgent cfg arr i me with
      | none => none
      | some b2 => tickLoop cfg rest (arr.set i b2)

/-- One whole simulation tick of a group. -/
noncomputable def tick (cfg : Cfg) (arr : List Boid) : Option (List Boid) :=
  tickLoop cfg (List.range arr.length) arr

/-- Concrete configuration for the speed-bound counterexample: a
solitary, non-jellyfish species of speed 2 (so the claimed bounds are
`1 ≤ |velocity| ≤ 2`). -/
noncomputable def cfgSolitary : Cfg :=
  ⟨Behavior.solitary, false, false, 0, 2⟩

/-- The counterexample agent: alone, 125 units from the group origin
along x, travelling outward at the claimed minimum speed 1. -/
noncomputable def bFar : Boid :=
  ⟨⟨125, 0, 0⟩, ⟨1, 0, 0⟩, 0, 0⟩

/-- The state the counterexample agent reaches after one tick: the
centering force exactly cancels its velocity and the zero vector slips
through `clampLength` unscaled, leaving it fully stopped. -/
noncomputable def bStopped : Boid :=
  ⟨⟨126, 0, 0⟩, 0, 0, 0⟩

/-- Concrete configuration for the division-by-zero counterexample: a
school species of speed 2. -/
noncomputable def cfgSchool : Cfg :=
  ⟨Behavior.school, false, false, 0, 2⟩

/-- Two copies of this agent occupy the same position, so the
separation term divides the zero away-vector by the zero distance. -/
noncomputable def bTwin : Boid :=
  ⟨⟨1, 2, 3⟩, ⟨1, 0, 0⟩, 0, 0⟩

end Boids

namespace Inter

/-- Invariant of `closestLoop`: the running minimum never grows, a
candidate produced by the loop is a not-yet-activated item of the list
(or the initial candidate) whose squared distance is the final minimum,
a `none` result means nothing qualified and the minimum is untouched, a
changed candidate means the minimum strictly dropped, and the final
minimum is below the squared distance of every not-yet-activated item of
the list. -/
theorem closestLoop_invariant (p : Position) (acts : List IId) :
    ∀ (l : List Item) (best : Option Item) (m : ℚ),
      (∀ b : Item, best = some b → b.id ∉ acts ∧ sqDistTo p b = m) →
      (closestLoop p acts l (best, m)).2 ≤ m
      ∧ (∀ b : Item, (closestLoop p acts l (best, m)).1 = some b →
          (b ∈ l ∨ best = some b) ∧ b.id ∉ acts
            ∧ sqDistTo p b = (closestLoop p acts l (best, m)).2)
      ∧ ((closestLoop p acts l (best, m)).1 = none → best = none
            ∧ (closestLoop p acts l (best, m)).2 = m)
      ∧ ((closestLoop p acts l (best, m)).1 ≠ best
            → (closestLoop p acts l (best, m)).2 < m)
      ∧ (∀ it ∈ l, it.id ∉ acts
            → (closestLoop p acts l (best, m)).2 ≤ sqDistTo p it) := by
  intro l
  induction l with
  | nil =>
    intro best m hbest
    refine ⟨le_refl m, ?_, ?_, ?_, ?_⟩
    · intro b hb
      exact ⟨Or.inr hb, (hbest b hb).1, (hbest b hb).2⟩
    · intro h
      exact ⟨h, rfl⟩
    · intro h
      exact absurd rfl h
    · intro it hit
      exact absurd hit (List.not_mem_nil it)
  | cons it rest ih =>
    intro best m hbest
    by_cases hact : it.id ∈ acts
    · have heq : closestLoop p acts (it :: rest) (best, m)
          = closestLoop p acts rest (best, m) := by
        simp [closestLoop, hact]
      obtain ⟨h1, h2, h3, h4, h5⟩ := ih best m hbest
      rw [heq]
      refine ⟨h1, ?_, h3, h4, ?_⟩
      · intro b hb
        obtain ⟨hmem, hna, hd⟩ := h2 b hb
        rcases hmem with hmem | hmem
        · exact ⟨Or.inl (List.mem_cons_of_mem it hmem), hna, hd⟩
        · exact ⟨Or.inr hmem, hna, hd⟩
      · intro x hx hxa
        rcases List.mem_cons.mp hx with hx | hx
        · subst hx
          exact absurd hact hxa
        · exact h5 x hx hxa
    · by_cases hlt : sqDistTo p it < m
      · have heq : closestLoop p acts (it :: rest) (best, m)
            = closestLoop p acts rest (some it, sqDistTo p it) := by
          simp [closestLoop, hact, hlt]
        have hbest2 : ∀ b : Item, (some it : Option Item) = some b
            → b.id ∉ acts ∧ sqDistTo p b = sqDistTo p it := by
          intro b hb
          cases Option.some.inj hb
          exact ⟨hact, rfl⟩
        obtain ⟨h1, h2, h3, h4, h5⟩ := ih (some it) (sqDistTo p it) hbest2
        rw [heq]
        refine ⟨le_of_lt (lt_of_le_of_lt h1 hlt), ?_, ?_, ?_, ?_⟩
        · intro b hb
          obtain ⟨hmem, hna, hd⟩ := h2 b hb
          rcases hmem with hmem | hmem
          · exact ⟨Or.inl (List.mem_cons_of_mem it hmem), hna, hd⟩
          · cases Option.some.inj hmem
            exact ⟨Or.inl (List.mem_cons_self it rest), hna, hd⟩
        · intro h
          exact absurd (h3 h).1 (by simp)
        · intro _
          exact lt_of_le_of_lt h1 hlt
        · intro x hx hxa
          rcases List.mem_cons.mp hx with hx | hx
          · subst hx
            exact h1
          · exact h5 x hx hxa
      · have heq : closestLoop p acts (it :: rest) (best, m)
            = closestLoop p acts rest (best, m) := by
          simp [closestLoop, hact, hlt]
        obtain ⟨h1, h2, h3, h4, h5⟩ := ih best m hbest
        rw [heq]
        refine ⟨h1, ?_, h3, h4, ?_⟩
        · intro b hb
          obtain ⟨hmem, hna, hd⟩ := h2 b hb
          rcases hmem with hmem | hmem
          · exact ⟨Or.inl (List.mem_cons_of_mem it hmem), hna, hd⟩
          · exact ⟨Or.inr hmem, hna, hd⟩
        · intro x hx hxa
          rcases List.mem_cons.mp hx with hx | hx
          · subst hx
            exact le_trans h1 (not_lt.mp hlt)
          · exact h5 x hx hxa

/-- C4: the closest-interactable query, given the player position, the
interactable list and the set of already-activated identifiers, returns
`none` exactly when every not-yet-activated item is at squared distance
at least 16 (= 4 * 4, the interaction radius squared), and otherwise
returns a not-yet-activated item of the list within the radius whose
squared distance is minimal among all not-yet-activated items. -/
theorem closest_interactable_correct (p : Position) (items : List Item)
    (acts : List IId) :
    (closestInteractable p items acts = none
        ↔ ∀ it ∈ items, it.id ∉ acts → 16 ≤ sqDistTo p it)
    ∧ (∀ b : Item, closestInteractable p items acts = some b →
        b ∈ items ∧ b.id ∉ acts ∧ sqDistTo p b < 16
          ∧ ∀ o ∈ items, o.id ∉ acts → sqDistTo p b ≤ sqDistTo p o) := by
  obtain ⟨h1, h2, h3, h4, h5⟩ :=
    closestLoop_invariant p acts items none 16 (by intro b hb; cases hb)
  have hq0 : closestInteractable p items acts
      = (closestLoop p acts items (none, 16)).1 := rfl
  rw [hq0]
  constructor
  · constructor
    · intro hnone it hit hact
      have := h5 it hit hact
      rw [(h3 hnone).2] at this
      exact this
    · intro hall
      rcases hq : (closestLoop p acts items (none, 16)).1 with _ | b
      · rfl
      · obtain ⟨hmem, hact, hd⟩ := h2 b hq
        rcases hmem with hmem | hmem
        · have hlt : (closestLoop p acts items (none, 16)).2 < 16 := by
            apply h4
            rw [hq]
            intro hc
            cases hc
          rw [← hd] at hlt
          exact absurd (hall b hmem hact) (not_le.mpr hlt)
        · cases hmem
  · intro b hb
    obtain ⟨hmem, hact, hd⟩ := h2 b hb
    have hmem2 : b ∈ items := by
      rcases hmem with hmem | hmem
      · exact hmem
      · cases hmem
    have hlt : (closestLoop p acts items (none, 16)).2 < 16 := by
      apply h4
      rw [hb]
      intro hc
      cases hc
    refine ⟨hmem2, hact, ?_, ?_⟩
    · rw [hd]
      exact hlt
    · intro o ho hoa
      rw [hd]
      exact h5 o ho hoa

end Inter

/-- C1: a proximity scanner with enter threshold 10 and exit threshold
15, starting not-scanned and fed the distances [20, 9, 11, 14, 16, 9],
emits scan-started exactly twice — at the first 9 and at the final 9 —
and scan-ended exactly once, at 16, with no event on the other frames;
and in general a frame emits no event exactly when the scanned flag does
not change on that frame. -/
theorem scanner_hysteresis :
    Scanner.scanRun false [20, 9, 11, 14, 16, 9]
      = [none, some Scanner.ScanEvent.started, none, none,
         some Scanner.ScanEvent.ended, some Scanner.ScanEvent.started]
    ∧ ∀ (s : Bool) (d : ℚ),
        (Scanner.scanStep s d).2 = none ↔ (Scanner.scanStep s d).1 = s := by
  constructor
  · decide
  · intro s d
    cases s <;> simp [Scanner.scanStep] <;> split_ifs <;> simp_all

namespace WorldGen

open Inter

/-- The cells a run visits are exactly the given cell list, in order. -/
theorem runCells_map_fst (env : Env) :
    ∀ (c : ℕ) (cells : List (ℚ × ℚ)),
      (runCells env c cells).map Prod.fst = cells := by
  intro c cells
  induction cells generalizing c with
  | nil => rfl
  | cons xz rest ih => simp [runCells, ih]

/-- Every entry of a run is the contribution `processCell` computes for
its own cell coordinates at some draw counter. -/
theorem runCells_entry (env : Env) :
    ∀ (c : ℕ) (cells : List (ℚ × ℚ)) (e : (ℚ × ℚ) × Contrib),
      e ∈ runCells env c cells →
      ∃ c0 : ℕ, e.2 = (processCell env c0 e.1.1 e.1.2).2 := by
  intro c cells
  induction cells generalizing c with
  | nil =>
    intro e he
    cases he
  | cons xz rest ih =>
    intro e he
    rcases List.mem_cons.mp he with he | he
    · subst he
      exact ⟨c, rfl⟩
    · exact ih _ e he

/-- The x (or z) indices of the centered loop are pairwise distinct. -/
theorem coords_nodup (n : ℤ) : (coords n).Nodup := by
  apply List.Nodup.map
  · intro a b h
    have : (a : ℚ) = (b : ℚ) := by linarith
    exact_mod_cast this
  · exact List.nodup_range _

/-- The visited cells are pairwise distinct. -/
theorem cellList_nodup (w d : ℤ) : (cellList w d).Nodup :=
  List.Nodup.product (coords_nodup w) (coords_nodup d)

/-- Product with an empty second list is empty. -/
theorem product_nil_right {α β : Type} (l : List α) :
    l.product ([] : List β) = [] := by
  induction l with
  | nil => rfl
  | cons a t ih => simp_all [List.product]

/-- A degenerate dimension empties the cell list. -/
theorem cellList_degenerate (w d : ℤ) (h : w ≤ 0 ∨ d ≤ 0) :
    cellList w d = [] := by
  rcases h with h | h
  · have h0 : coords w = [] := by
      have : (max w 0).toNat = 0 := by omega
      simp [coords, this]
    simp [cellList, h0, List.product]
  · have h0 : coords d = [] := by
      have : (max d 0).toNat = 0 := by omega
      simp [cellList, coords, this]
    rw [cellList, h0, product_nil_right]

/-- Three color components accompany every coral block of a list. -/
theorem colors_flat_len (hex : ℕ) :
    ∀ l : List Position,
      (l.flatMap fun _ => colorComponents hex).length = 3 * l.length := by
  intro l
  induction l with
  | nil => rfl
  | cons a l ih =>
    rw [List.flatMap_cons, List.length_append, ih]
    simp [colorComponents]
    omega

/-- Branch lemma: the ruins branch contributes no coral. -/
theorem ruinsBranch_colors_len (env : Env) (c : ℕ) (x z px pz surf : ℚ) :
    (ruinsBranch env c x z px pz surf).2.coralColors.length
      = 3 * (ruinsBranch env c x z px pz surf).2.coral.length := by
  unfold ruinsBranch
  split_ifs <;> rfl

/-- Branch lemma: the kelp branch contributes no coral. -/
theorem kelpBranch_colors_len (env : Env) (c : ℕ) (px pz surf : ℚ) :
    (kelpBranch env c px pz surf).2.coralColors.length
      = 3 * (kelpBranch env c px pz surf).2.coral.length := by
  unfold kelpBranch
  split_ifs <;> rfl

/-- Branch lemma: the coral branch pushes three color components per
block. -/
theorem coralBranch_colors_len (env : Env) (c : ℕ) (px pz surf : ℚ) :
    (coralBranch env c px pz surf).2.coralColors.length
      = 3 * (coralBranch env c px pz surf).2.coral.length := by
  unfold coralBranch
  split_ifs <;> exact colors_flat_len _ _

/-- The cascade contributes exactly three color components per coral
block it contributes. -/
theorem cascade_colors_len (env : Env) (c : ℕ) (x z px pz surf rand veg : ℚ) :
    (cascade env c x z px pz surf rand veg).2.coralColors.length
      = 3 * (cascade env c x z px pz surf rand veg).2.coral.length := by
  unfold cascade
  split_ifs
  any_goals rfl
  · exact ruinsBranch_colors_len env c x z px pz surf
  · exact kelpBranch_colors_len env c px pz surf
  · exact coralBranch_colors_len env c px pz surf

/-- Each cell contributes exactly three color components per coral
block. -/
theorem processCell_colors_len (env : Env) (c : ℕ) (x z : ℚ) :
    (processCell env c x z).2.coralColors.length
      = 3 * (processCell env c x z).2.coral.length := by
  rw [processCell_snd]
  exact cascade_colors_len env c x z _ _ _ _ _

/-- Aggregation of `processCell_colors_len` over a whole run. -/
theorem runCells_colors_len (env : Env) :
    ∀ (c : ℕ) (cells : List (ℚ × ℚ)),
      ((runCells env c cells).flatMap fun e => e.2.coralColors).length
        = 3 * ((runCells env c cells).flatMap fun e => e.2.coral).length := by
  intro c cells
  induction cells generalizing c with
  | nil => rfl
  | cons xz rest ih =>
    simp only [runCells, List.flatMap_cons, List.length_append,
      processCell_colors_len, ih]
    omega

/-- `BLOCK_SIZE` is not zero, so physical coordinates determine cell
indices. -/
theorem B_ne : B ≠ 0 := by
  norm_num [B]

/-- Stone and rune blocks of one monolith never coincide: distinct loop
indices give distinct heights, and one index feeds exactly one list. -/
theorem monolith_stone_runes_disjoint (env : Env) (c0 : ℕ) (px surf pz : ℚ)
    (n : ℕ) (p : Position) (hs : p ∈ monolithStone env c0 px surf pz n) :
    p ∉ monolithRunes env c0 px surf pz n := by
  intro hr
  simp only [monolithStone, monolithRunes, List.mem_map, List.mem_filter,
    List.mem_range, decide_eq_true_eq] at hs hr
  obtain ⟨h1, ⟨hlt1, hc1⟩, hp1⟩ := hs
  obtain ⟨h2, ⟨hlt2, hc2⟩, hp2⟩ := hr
  rw [← hp2] at hp1
  have hy : surf + (h1 : ℚ) * B = surf + (h2 : ℚ) * B :=
    congrArg (fun q : Position => q.2.1) hp1
  have : (h1 : ℚ) = (h2 : ℚ) :=
    mul_right_cancel₀ B_ne (by linarith)
  have he : h1 = h2 := Nat.cast_injective this
  rw [he] at hc1
  exact absurd hc2 (not_lt.mpr hc1)

/-- No stone or rune block of a monolith coincides with its lamp: the
lamp sits strictly above every block of the column. -/
theorem monolith_lamp_disjoint (env : Env) (c0 : ℕ) (px surf pz : ℚ)
    (n : ℕ) (q : ℚ) (hq : ∀ h : ℕ, h < n → (h : ℚ) < q) (p : Position)
    (hs : p ∈ monolithStone env c0 px surf pz n
        ∨ p ∈ monolithRunes env c0 px surf pz n) :
    p ∉ [((px, surf + q * B, pz) : Position)] := by
  intro hl
  have hy : ∃ h : ℕ, h < n ∧ p.2.1 = surf + (h : ℚ) * B := by
    rcases hs with hs | hs <;>
      simp only [monolithStone, monolithRunes, List.mem_map, List.mem_filter,
        List.mem_range, decide_eq_true_eq] at hs <;>
      obtain ⟨h1, ⟨hlt1, _⟩, hp1⟩ := hs <;>
      exact ⟨h1, hlt1, by rw [← hp1]⟩
  obtain ⟨h1, hlt1, hy1⟩ := hy
  simp only [List.mem_singleton] at hl
  rw [hl] at hy1
  have : (h1 : ℚ) * B = q * B := by
    simpa using hy1.symm
  have : (h1 : ℚ) = q := mul_right_cancel₀ B_ne this
  exact absurd (hq h1 hlt1) (by rw [this]; exact lt_irrefl q)

/-- A contribution all of whose cascade categories but one are empty has
pairwise disjoint categories. -/
theorem ccat_single_disjoint (K : Contrib) (i0 : Fin 11)
    (h : ∀ i1 : Fin 11, i1 ≠ i0 → ccat K i1 = [])
    (i j : Fin 11) (hij : i ≠ j) (p : Position)
    (hi : p ∈ ccat K i) (hj : p ∈ ccat K j) : False := by
  by_cases hii : i = i0
  · subst hii
    rw [h j (Ne.symm hij)] at hj
    exact absurd hj (List.not_mem_nil p)
  · rw [h i hii] at hi
    exact absurd hi (List.not_mem_nil p)

/-- A monolith contribution (stone, runes and lamps possibly nonempty,
all other cascade categories empty) has pairwise disjoint categories
when its three populated lists are mutually disjoint. -/
theorem ccat_ruins_disjoint (K : Contrib)
    (h : ∀ i1 : Fin 11, i1 ≠ 1 → i1 ≠ 2 → i1 ≠ 3 → ccat K i1 = [])
    (h12 : ∀ p : Position, p ∈ K.stone → p ∉ K.runes)
    (h13 : ∀ p : Position, p ∈ K.stone → p ∉ K.lamps)
    (h23 : ∀ p : Position, p ∈ K.runes → p ∉ K.lamps)
    (i j : Fin 11) (hij : i ≠ j) (p : Position)
    (hi : p ∈ ccat K i) (hj : p ∈ ccat K j) : False := by
  have key : ∀ i1 : Fin 11, p ∈ ccat K i1 → i1 = 1 ∨ i1 = 2 ∨ i1 = 3 := by
    intro i1 hp
    by_cases e1 : i1 = 1
    · exact Or.inl e1
    by_cases e2 : i1 = 2
    · exact Or.inr (Or.inl e2)
    by_cases e3 : i1 = 3
    · exact Or.inr (Or.inr e3)
    rw [h i1 e1 e2 e3] at hp
    exact absurd hp (List.not_mem_nil p)
  rcases key i hi with e | e | e <;> rcases key j hj with e2 | e2 | e2 <;>
    subst e <;> subst e2 <;>
    first
      | exact hij rfl
      | exact h12 p hi hj
      | exact h12 p hj hi
      | exact h13 p hi hj
      | exact h13 p hj hi
      | exact h23 p hi hj
      | exact h23 p hj hi

/-- Pairwise disjointness of the cascade categories for the ruins
branch. -/
theorem ruinsBranch_ccat_disjoint (env : Env) (c : ℕ) (x z px pz surf : ℚ)
    (i j : Fin 11) (hij : i ≠ j) (p : Position)
    (hi : p ∈ ccat (ruinsBranch env c x z px pz surf).2 i)
    (hj : p ∈ ccat (ruinsBranch env c x z px pz surf).2 j) : False := by
  have hqn : ∀ h : ℕ, h < (⌊env.rng (c + 2) * 10⌋ + 5).toNat →
      (h : ℚ) < ((⌊env.rng (c + 2) * 10⌋ + 5 : ℤ) : ℚ) := by
    intro h hh
    have : (h : ℤ) < ⌊env.rng (c + 2) * 10⌋ + 5 := by omega
    exact_mod_cast this
  revert hi hj
  unfold ruinsBranch
  split_ifs <;> intro hi hj
  · exact ccat_single_disjoint _ 0
      (by intro i1 hne; fin_cases i1 <;> first | rfl | (exact absurd rfl hne))
      i j hij p hi hj
  · exact ccat_ruins_disjoint _
      (by intro i1 h1 h2 h3; fin_cases i1 <;> first | rfl | (exact absurd rfl h1) | (exact absurd rfl h2) | (exact absurd rfl h3))
      (fun p1 hp1 => monolith_stone_runes_disjoint env _ px surf pz _ p1 hp1)
      (fun p1 hp1 => monolith_lamp_disjoint env _ px surf pz _ _ hqn p1 (Or.inl hp1))
      (fun p1 hp1 => monolith_lamp_disjoint env _ px surf pz _ _ hqn p1 (Or.inr hp1))
      i j hij p hi hj
  · exact ccat_ruins_disjoint _
      (by intro i1 h1 h2 h3; fin_cases i1 <;> first | rfl | (exact absurd rfl h1) | (exact absurd rfl h2) | (exact absurd rfl h3))
      (fun p1 hp1 => monolith_stone_runes_disjoint env _ px surf pz _ p1 hp1)
      (fun p1 hp1 => monolith_lamp_disjoint env _ px surf pz _ _ hqn p1 (Or.inl hp1))
      (fun p1 hp1 => monolith_lamp_disjoint env _ px surf pz _ _ hqn p1 (Or.inr hp1))
      i j hij p hi hj

/-- Pairwise disjointness of the cascade categories for every branch of
the cascade. -/
theorem cascade_ccat_disjoint (env : Env) (c : ℕ) (x z px pz surf rand veg : ℚ)
    (i j : Fin 11) (hij : i ≠ j) (p : Position)
    (hi : p ∈ ccat (cascade env c x z px pz surf rand veg).2 i)
    (hj : p ∈ ccat (cascade env c x z px pz surf rand veg).2 j) : False := by
  revert hi hj
  unfold cascade
  split_ifs <;> intro hi hj
  · exact ruinsBranch_ccat_disjoint env c x z px pz surf i j hij p hi hj
  · revert hi hj
    unfold kelpBranch
    split_ifs <;> intro hi hj <;>
      exact ccat_single_disjoint _ 4
        (by intro i1 hne; fin_cases i1 <;> first | rfl | (exact absurd rfl hne))
        i j hij p hi hj
  · exact ccat_single_disjoint _ 0
      (by intro i1 hne; fin_cases i1 <;> first | rfl | (exact absurd rfl hne))
      i j hij p hi hj
  · exact ccat_single_disjoint _ 5
      (by intro i1 hne; fin_cases i1 <;> first | rfl | (exact absurd rfl hne))
      i j hij p hi hj
  · exact ccat_single_disjoint _ 6
      (by intro i1 hne; fin_cases i1 <;> first | rfl | (exact absurd rfl hne))
      i j hij p hi hj
  · exact ccat_single_disjoint _ 7
      (by intro i1 hne; fin_cases i1 <;> first | rfl | (exact absurd rfl hne))
      i j hij p hi hj
  · exact ccat_single_disjoint _ 8
      (by intro i1 hne; fin_cases i1 <;> first | rfl | (exact absurd rfl hne))
      i j hij p hi hj
  · exact ccat_single_disjoint _ 9
      (by intro i1 hne; fin_cases i1 <;> first | rfl | (exact absurd rfl hne))
      i j hij p hi hj
  · revert hi hj
    unfold coralBranch
    split_ifs <;> intro hi hj <;>
      exact ccat_single_disjoint _ 10
        (by intro i1 hne; fin_cases i1 <;> first | rfl | (exact absurd rfl hne))
        i j hij p hi hj
  · exact ccat_single_disjoint _ 0
      (by intro i1 hne; fin_cases i1 <;> first | rfl | (exact absurd rfl hne))
      i j hij p hi hj

/-- The cascade categories of a cell's contribution ignore the sand
field, so they coincide with the cascade's own categories. -/
theorem ccat_processCell (env : Env) (c : ℕ) (x z : ℚ) (i : Fin 11) :
    ccat (processCell env c x z).2 i
      = ccat (cascade env c x z (x * B) (z * B) (pyOf env (x * B) (z * B) + B)
          (env.rng c) (vegOf env (x * B) (z * B))).2 i := by
  rw [processCell_snd]
  fin_cases i <;> rfl

/-- Every cascade category is contained in the union of all cascade
categories. -/
theorem ccat_sub (K : Contrib) (i : Fin 11) (p : Position)
    (hp : p ∈ ccat K i) : p ∈ ccatAll K := by
  fin_cases i <;> simp only [ccat, List.get] at hp <;> simp [ccatAll, hp]

/-- Every position of the ruins branch carries the cell's physical x
and z coordinates. -/
theorem ruinsBranch_stamp (env : Env) (c : ℕ) (x z px pz surf : ℚ)
    (p : Position) (hp : p ∈ ccatAll (ruinsBranch env c x z px pz surf).2) :
    p.1 = px ∧ p.2.2 = pz := by
  revert hp
  unfold ruinsBranch
  split_ifs <;> intro hp <;>
    simp only [ccatAll, List.append_nil, List.nil_append, List.mem_append,
      heightList, monolithStone, monolithRunes, List.mem_map, List.mem_filter,
      List.mem_range, List.mem_singleton] at hp
  · obtain ⟨h, _, he⟩ := hp
    subst he
    exact ⟨rfl, rfl⟩
  · rcases hp with (⟨h, _, he⟩ | ⟨h, _, he⟩) | he <;> subst he <;>
      exact ⟨rfl, rfl⟩
  · rcases hp with (⟨h, _, he⟩ | ⟨h, _, he⟩) | he <;> subst he <;>
      exact ⟨rfl, rfl⟩

/-- Every position of the kelp branch carries the cell's physical x and
z coordinates. -/
theorem kelpBranch_stamp (env : Env) (c : ℕ) (px pz surf : ℚ)
    (p : Position) (hp : p ∈ ccatAll (kelpBranch env c px pz surf).2) :
    p.1 = px ∧ p.2.2 = pz := by
  revert hp
  unfold kelpBranch
  split_ifs <;> intro hp <;>
    simp only [ccatAll, List.append_nil, List.nil_append, List.mem_append,
      heightList, List.mem_map, List.mem_range] at hp <;>
    obtain ⟨h, _, he⟩ := hp <;> subst he <;> exact ⟨rfl, rfl⟩

/-- Every position of the coral branch carries the cell's physical x
and z coordinates. -/
theorem coralBranch_stamp (env : Env) (c : ℕ) (px pz surf : ℚ)
    (p : Position) (hp : p ∈ ccatAll (coralBranch env c px pz surf).2) :
    p.1 = px ∧ p.2.2 = pz := by
  revert hp
  unfold coralBranch
  split_ifs <;> intro hp <;>
    simp only [ccatAll, List.append_nil, List.nil_append, List.mem_append,
      List.mem_cons, List.mem_map, List.mem_range, List.mem_singleton,
      List.not_mem_nil, or_false] at hp
  · rcases hp with he | ⟨h, _, he⟩ <;> subst he <;> exact ⟨rfl, rfl⟩
  · subst hp
    exact ⟨rfl, rfl⟩

/-- Every position any cascade branch places carries the cell's
physical x and z coordinates. -/
theorem cascade_stamp (env : Env) (c : ℕ) (x z px pz surf rand veg : ℚ)
    (p : Position)
    (hp : p ∈ ccatAll (cascade env c x z px pz surf rand veg).2) :
    p.1 = px ∧ p.2.2 = pz := by
  revert hp
  unfold cascade
  split_ifs <;> intro hp
  · exact ruinsBranch_stamp env c x z px pz surf p hp
  · exact kelpBranch_stamp env c px pz surf p hp
  · simp [chestBranch, ccatAll] at hp
  · simp only [ccatAll, List.append_nil, List.nil_append,
      List.mem_singleton] at hp
    subst hp
    exact ⟨rfl, rfl⟩
  · simp only [ccatAll, List.append_nil, List.nil_append,
      List.mem_singleton] at hp
    subst hp
    exact ⟨rfl, rfl⟩
  · simp only [ccatAll, List.append_nil, List.nil_append,
      List.mem_singleton] at hp
    subst hp
    exact ⟨rfl, rfl⟩
  · simp only [ccatAll, List.append_nil, List.nil_append,
      List.mem_singleton] at hp
    subst hp
    exact ⟨rfl, rfl⟩
  · simp only [ccatAll, List.append_nil, List.nil_append,
      List.mem_singleton] at hp
    subst hp
    exact ⟨rfl, rfl⟩
  · exact coralBranch_stamp env c px pz surf p hp
  · simp [ccatAll] at hp

/-- Every cascade position of a processed cell determines the cell's
grid coordinates. -/
theorem processCell_stamp (env : Env) (c : ℕ) (x z : ℚ) (i : Fin 11)
    (p : Position) (hp : p ∈ ccat (processCell env c x z).2 i) :
    p.1 = x * B ∧ p.2.2 = z * B := by
  rw [ccat_processCell] at hp
  exact cascade_stamp env c x z (x * B) (z * B) _ _ _ p (ccat_sub _ i p hp)

/-- The ruins branch spawns at most one interactable, a mechanism whose
identifier carries the cell's grid coordinates. -/
theorem ruinsBranch_inter (env : Env) (c : ℕ) (x z px pz surf : ℚ) :
    (ruinsBranch env c x z px pz surf).2.inter.length ≤ 1
    ∧ ∀ it ∈ (ruinsBranch env c x z px pz surf).2.inter,
        IId.coords it.id = (x, z) := by
  unfold ruinsBranch
  split_ifs <;> constructor <;> simp [IId.coords]

/-- The kelp branch spawns no interactable. -/
theorem kelpBranch_inter_nil (env : Env) (c : ℕ) (px pz surf : ℚ) :
    (kelpBranch env c px pz surf).2.inter = [] := by
  unfold kelpBranch
  split_ifs <;> rfl

/-- The coral branch spawns no interactable. -/
theorem coralBranch_inter_nil (env : Env) (c : ℕ) (px pz surf : ℚ) :
    (coralBranch env c px pz surf).2.inter = [] := by
  unfold coralBranch
  split_ifs <;> rfl

/-- Each cascade evaluation spawns at most one interactable. -/
theorem cascade_inter_len (env : Env) (c : ℕ) (x z px pz surf rand veg : ℚ) :
    (cascade env c x z px pz surf rand veg).2.inter.length ≤ 1 := by
  unfold cascade
  split_ifs
  · exact (ruinsBranch_inter env c x z px pz surf).1
  · rw [kelpBranch_inter_nil]
    simp
  · simp [chestBranch]
  · simp
  · simp
  · simp
  · simp
  · simp
  · rw [coralBranch_inter_nil]
    simp
  · simp

/-- Each interactable the cascade spawns carries the cell's grid
coordinates in its identifier. -/
theorem cascade_inter_coords (env : Env) (c : ℕ) (x z px pz surf rand veg : ℚ) :
    ∀ it ∈ (cascade env c x z px pz surf rand veg).2.inter,
      IId.coords it.id = (x, z) := by
  unfold cascade
  split_ifs
  · exact (ruinsBranch_inter env c x z px pz surf).2
  · rw [kelpBranch_inter_nil]
    simp
  · simp [chestBranch, IId.coords]
  · simp
  · simp
  · simp
  · simp
  · simp
  · rw [coralBranch_inter_nil]
    simp
  · simp

/-- Each processed cell spawns at most one interactable, whose
identifier carries the cell's grid coordinates. -/
theorem processCell_inter (env : Env) (c : ℕ) (x z : ℚ) :
    (processCell env c x z).2.inter.length ≤ 1
    ∧ ∀ it ∈ (processCell env c x z).2.inter,
        IId.coords it.id = (x, z) := by
  rw [processCell_snd]
  exact ⟨cascade_inter_len env c x z _ _ _ _ _,
         cascade_inter_coords env c x z _ _ _ _ _⟩

/-- A list with at most one element has no duplicates. -/
theorem nodup_of_len_le_one {α : Type} :
    ∀ l : List α, l.length ≤ 1 → l.Nodup
  | [], _ => List.nodup_nil
  | [a], _ => List.nodup_singleton a
  | a :: b :: t, h => absurd h (by simp [List.length_cons])

/-- Identifiers collected from entries with pairwise distinct keys, at
most one identifier per entry, each identifier determining its entry's
key, are pairwise distinct. -/
theorem inter_ids_nodup_aux :
    ∀ rs : List ((ℚ × ℚ) × Contrib),
      ((rs.map Prod.fst).Nodup) →
      (∀ e ∈ rs, ∀ it ∈ e.2.inter, IId.coords it.id = e.1) →
      (∀ e ∈ rs, e.2.inter.length ≤ 1) →
      ((rs.flatMap fun e => e.2.inter).map Item.id).Nodup := by
  intro rs
  induction rs with
  | nil =>
    intro _ _ _
    exact List.nodup_nil
  | cons e rest ih =>
    intro hnd hco hlen
    rw [List.flatMap_cons, List.map_append, List.nodup_append]
    rw [List.map_cons, List.nodup_cons] at hnd
    refine ⟨?_, ?_, ?_⟩
    · exact nodup_of_len_le_one _ (by
        rw [List.length_map]
        exact hlen e (List.mem_cons_self e rest))
    · exact ih hnd.2
        (fun e2 he2 => hco e2 (List.mem_cons_of_mem e he2))
        (fun e2 he2 => hlen e2 (List.mem_cons_of_mem e he2))
    · intro a ha hb
      rw [List.mem_map] at ha
      obtain ⟨it1, hit1, hid1⟩ := ha
      rw [List.mem_map] at hb
      obtain ⟨it2, hit2, hid2⟩ := hb
      rw [List.mem_flatMap] at hit2
      obtain ⟨e2, he2, hit2e⟩ := hit2
      have hc1 : IId.coords it1.id = e.1 :=
        hco e (List.mem_cons_self e rest) it1 hit1
      have hc2 : IId.coords it2.id = e2.1 :=
        hco e2 (List.mem_cons_of_mem e he2) it2 hit2e
      have : e.1 = e2.1 := by
        rw [← hc1, ← hc2, hid1, hid2]
      apply hnd.1
      rw [this]
      exact List.mem_map_of_mem Prod.fst he2

/-- The ruins branch satisfies the point-of-interest accounting. -/
theorem ruinsBranch_poi (env : Env) (c : ℕ) (x z px pz surf : ℚ) :
    poiSpec (ruinsBranch env c x z px pz surf).2 := by
  unfold ruinsBranch poiSpec
  split_ifs <;> refine ⟨?_, ?_, ?_, ?_, ?_⟩ <;> simp [List.filter]

/-- The kelp branch satisfies the point-of-interest accounting. -/
theorem kelpBranch_poi (env : Env) (c : ℕ) (px pz surf : ℚ) :
    poiSpec (kelpBranch env c px pz surf).2 := by
  unfold kelpBranch poiSpec
  split_ifs <;> refine ⟨?_, ?_, ?_, ?_, ?_⟩ <;> simp [List.filter]

/-- The chest branch satisfies the point-of-interest accounting. -/
theorem chestBranch_poi (env : Env) (c : ℕ) (x z px pz surf : ℚ) :
    poiSpec (chestBranch env c x z px pz surf).2 := by
  unfold chestBranch poiSpec
  refine ⟨?_, ?_, ?_, ?_, ?_⟩ <;> simp [List.filter]

/-- The coral branch satisfies the point-of-interest accounting. -/
theorem coralBranch_poi (env : Env) (c : ℕ) (px pz surf : ℚ) :
    poiSpec (coralBranch env c px pz surf).2 := by
  unfold coralBranch poiSpec
  split_ifs <;> refine ⟨?_, ?_, ?_, ?_, ?_⟩ <;> simp [List.filter]

/-- Every branch of the cascade satisfies the point-of-interest
accounting. -/
theorem cascade_poi (env : Env) (c : ℕ) (x z px pz surf rand veg : ℚ) :
    poiSpec (cascade env c x z px pz surf rand veg).2 := by
  unfold cascade
  split_ifs
  · exact ruinsBranch_poi env c x z px pz surf
  · exact kelpBranch_poi env c px pz surf
  · exact chestBranch_poi env c x z px pz surf
  · exact ⟨by simp, by simp, by simp, by simp, by simp⟩
  · exact ⟨by simp, by simp, by simp, by simp, by simp⟩
  · exact ⟨by simp, by simp, by simp, by simp, by simp⟩
  · exact ⟨by simp, by simp, by simp, by simp, by simp⟩
  · exact ⟨by simp, by simp, by simp, by simp, by simp⟩
  · exact coralBranch_poi env c px pz surf
  · exact ⟨by simp, by simp, by simp, by simp, by simp⟩

/-- The aggregated category lists are the concatenations of the
per-cell category lists. -/
theorem catList_flat (env : Env) (w d : ℤ) (i : Fin 11) :
    catList (generateTerrain env w d) i
      = (runCells env 0 (cellList w d)).flatMap fun e => ccat e.2 i := by
  fin_cases i <;> rfl

end WorldGen

/-- C5: at most one branch of the placement cascade claims a cell, so
each cell's contribution populates pairwise disjoint category lists and
the aggregated position lists of the eleven occupying output categories
(columns, stone, runes, lamps, kelp, grass, small rocks, anemones,
starfish, flowers, coral) are pairwise disjoint over the whole grid. -/
theorem placement_cascade_disjoint (env : WorldGen.Env) (w d : ℤ) :
    (∀ e ∈ WorldGen.runCells env 0 (WorldGen.cellList w d),
        ∀ i j : Fin 11, i ≠ j → ∀ p : Inter.Position,
          p ∈ WorldGen.ccat e.2 i → p ∉ WorldGen.ccat e.2 j)
    ∧ ∀ i j : Fin 11, i ≠ j → ∀ p : Inter.Position,
        p ∈ WorldGen.catList (WorldGen.generateTerrain env w d) i
          → p ∉ WorldGen.catList (WorldGen.generateTerrain env w d) j := by
  constructor
  · intro e he i j hij p hi hj
    obtain ⟨c0, hc⟩ := WorldGen.runCells_entry env 0 _ e he
    rw [hc, WorldGen.ccat_processCell] at hi hj
    exact WorldGen.cascade_ccat_disjoint env c0 e.1.1 e.1.2 _ _ _ _ _
      i j hij p hi hj
  · intro i j hij p hi hj
    rw [WorldGen.catList_flat, List.mem_flatMap] at hi hj
    obtain ⟨e1, he1, hp1⟩ := hi
    obtain ⟨e2, he2, hp2⟩ := hj
    obtain ⟨c1, hc1⟩ := WorldGen.runCells_entry env 0 _ e1 he1
    obtain ⟨c2, hc2⟩ := WorldGen.runCells_entry env 0 _ e2 he2
    have st1 := WorldGen.processCell_stamp env c1 e1.1.1 e1.1.2 i p
      (by rw [← hc1]; exact hp1)
    have st2 := WorldGen.processCell_stamp env c2 e2.1.1 e2.1.2 j p
      (by rw [← hc2]; exact hp2)
    have hx : e1.1.1 = e2.1.1 :=
      mul_right_cancel₀ WorldGen.B_ne (st1.1.symm.trans st2.1)
    have hz : e1.1.2 = e2.1.2 :=
      mul_right_cancel₀ WorldGen.B_ne (st1.2.symm.trans st2.2)
    have hnodup : ((WorldGen.runCells env 0
        (WorldGen.cellList w d)).map Prod.fst).Nodup := by
      rw [WorldGen.runCells_map_fst]
      exact WorldGen.cellList_nodup w d
    have he12 : e1 = e2 :=
      List.inj_on_of_nodup_map hnodup he1 he2 (Prod.ext hx hz)
    subst he12
    rw [hc1, WorldGen.ccat_processCell] at hp1 hp2
    exact WorldGen.cascade_ccat_disjoint env c1 e1.1.1 e1.1.2 _ _ _ _ _
      i j hij p hp1 hp2

/-- C9: the identifiers of all interactables in a generated layout are
pairwise distinct; each is derived deterministically from the item's
grid cell coordinates together with its type prefix, and no grid cell
produces more than one interactable. -/
theorem interactable_ids_unique (env : WorldGen.Env) (w d : ℤ) :
    (((WorldGen.generateTerrain env w d).interactables).map
        Inter.Item.id).Nodup
    ∧ ∀ e ∈ WorldGen.runCells env 0 (WorldGen.cellList w d),
        e.2.inter.length ≤ 1
        ∧ ∀ it ∈ e.2.inter, Inter.IId.coords it.id = e.1 := by
  have hper : ∀ e ∈ WorldGen.runCells env 0 (WorldGen.cellList w d),
      e.2.inter.length ≤ 1
      ∧ ∀ it ∈ e.2.inter, Inter.IId.coords it.id = e.1 := by
    intro e he
    obtain ⟨c0, hc⟩ := WorldGen.runCells_entry env 0 _ e he
    rw [hc]
    exact WorldGen.processCell_inter env c0 e.1.1 e.1.2
  refine ⟨?_, hper⟩
  have hnodup : ((WorldGen.runCells env 0
      (WorldGen.cellList w d)).map Prod.fst).Nodup := by
    rw [WorldGen.runCells_map_fst]
    exact WorldGen.cellList_nodup w d
  exact WorldGen.inter_ids_nodup_aux _ hnodup
    (fun e he => (hper e he).2) (fun e he => (hper e he).1)

/-- C6 (amended): every treasure chest, mechanism and coral occurrence
appends exactly one MapPointOfInterest of its type, and every rune
monolith (the lamp-topped ruin variant) appends one ruin point of
interest; but pillar ruins append none, and a kelp column appends a
kelp point of interest only when an additional random draw exceeds
0.995, so not every kelp occurrence gets one. -/
theorem poi_per_feature (env : WorldGen.Env) (c : ℕ) (x z : ℚ) :
    WorldGen.poiSpec (WorldGen.processCell env c x z).2 := by
  rw [WorldGen.processCell_snd]
  exact WorldGen.cascade_poi env c x z _ _ _ _ _

namespace Boids

/-- Components of a vector sum. -/
@[simp] theorem add_x (a b : V3) : (a + b).x = a.x + b.x := rfl

@[simp] theorem add_y (a b : V3) : (a + b).y = a.y + b.y := rfl

@[simp] theorem add_z (a b : V3) : (a + b).z = a.z + b.z := rfl

/-- Components of a vector difference. -/
@[simp] theorem sub_x (a b : V3) : (a - b).x = a.x - b.x := rfl

@[simp] theorem sub_y (a b : V3) : (a - b).y = a.y - b.y := rfl

@[simp] theorem sub_z (a b : V3) : (a - b).z = a.z - b.z := rfl

/-- Components of a scalar multiple. -/
@[simp] theorem smul_x (c : ℝ) (v : V3) : (c • v).x = c * v.x := rfl

@[simp] theorem smul_y (c : ℝ) (v : V3) : (c • v).y = c * v.y := rfl

@[simp] theorem smul_z (c : ℝ) (v : V3) : (c • v).z = c * v.z := rfl

/-- Components of the zero vector. -/
@[simp] theorem zero_x : (0 : V3).x = 0 := rfl

@[simp] theorem zero_y : (0 : V3).y = 0 := rfl

@[simp] theorem zero_z : (0 : V3).z = 0 := rfl

/-- Two vectors with equal components are equal. -/
theorem V3.ext' {a b : V3} (hx : a.x = b.x) (hy : a.y = b.y)
    (hz : a.z = b.z) : a = b := by
  cases a
  cases b
  simp_all

/-- Vector lengths are square roots, hence nonnegative. -/
theorem len_nonneg (v : V3) : 0 ≤ len v :=
  Real.sqrt_nonneg _

/-- A vector has length zero exactly when it is the zero vector. -/
theorem len_eq_zero_iff (v : V3) : len v = 0 ↔ v = 0 := by
  unfold len
  rw [Real.sqrt_eq_zero (by positivity)]
  constructor
  · intro h
    have hx : v.x = 0 := by nlinarith [sq_nonneg v.x, sq_nonneg v.y, sq_nonneg v.z]
    have hy : v.y = 0 := by nlinarith [sq_nonneg v.x, sq_nonneg v.y, sq_nonneg v.z]
    have hz : v.z = 0 := by nlinarith [sq_nonneg v.x, sq_nonneg v.y, sq_nonneg v.z]
    exact V3.ext' (by simp [hx]) (by simp [hy]) (by simp [hz])
  · intro h
    subst h
    norm_num

/-- Length of a scalar multiple. -/
theorem len_smul (c : ℝ) (v : V3) : len (c • v) = |c| * len v := by
  unfold len
  rw [show (c • v).x ^ 2 + (c • v).y ^ 2 + (c • v).z ^ 2
      = c ^ 2 * (v.x ^ 2 + v.y ^ 2 + v.z ^ 2) by
    simp
    ring]
  rw [Real.sqrt_mul (sq_nonneg c), Real.sqrt_sq_eq_abs]

/-- Scalar multiples of the zero vector vanish. -/
@[simp] theorem smul_zero' (c : ℝ) : c • (0 : V3) = 0 := by
  exact V3.ext' (by simp) (by simp) (by simp)

/-- The distance between two points vanishes exactly when they
coincide. -/
theorem distTo_eq_zero_iff (a b : V3) : distTo a b = 0 ↔ a = b := by
  unfold distTo
  rw [len_eq_zero_iff]
  constructor
  · intro h
    have hx := congrArg V3.x h
    have hy := congrArg V3.y h
    have hz := congrArg V3.z h
    simp at hx hy hz
    exact V3.ext' (by linarith) (by linarith) (by linarith)
  · intro h
    subst h
    exact V3.ext' (by simp) (by simp) (by simp)

/-- Distance is symmetric. -/
theorem distTo_comm (a b : V3) : distTo a b = distTo b a := by
  unfold distTo len
  rw [show (a - b).x ^ 2 + (a - b).y ^ 2 + (a - b).z ^ 2
      = (b - a).x ^ 2 + (b - a).y ^ 2 + (b - a).z ^ 2 by
    simp
    ring]

/-- Composition of scalar multiplications. -/
theorem smul_smul' (c d : ℝ) (v : V3) : c • (d • v) = (c * d) • v := by
  exact V3.ext' (by simp; ring) (by simp; ring) (by simp; ring)

/-- `clampLength` on a nonzero vector yields the clamped length and a
positive scalar multiple of the input (the direction is preserved). -/
theorem clampLength_spec (v : V3) (lo hi : ℝ) (hv : v ≠ 0) (hlo : 0 < lo) :
    len (clampLength v lo hi) = max lo (min hi (len v))
    ∧ ∃ c : ℝ, 0 < c ∧ clampLength v lo hi = c • v := by
  have hL : len v ≠ 0 := fun h => hv ((len_eq_zero_iff v).mp h)
  have hLpos : 0 < len v := lt_of_le_of_ne (len_nonneg v) (Ne.symm hL)
  have hfpos : 0 < max lo (min hi (len v)) / len v :=
    div_pos (lt_of_lt_of_le hlo (le_max_left _ _)) hLpos
  constructor
  · unfold clampLength jsOr1
    rw [if_neg hL, len_smul, abs_of_pos hfpos, div_mul_cancel₀ _ hL]
  · refine ⟨max lo (min hi (len v)) / len v, hfpos, ?_⟩
    unfold clampLength jsOr1
    rw [if_neg hL]

/-- `clampLength` leaves the zero vector at zero (the `length || 1`
guard divides by 1 and rescales the zero vector). -/
theorem clampLength_zero (lo hi : ℝ) : clampLength 0 lo hi = 0 := by
  unfold clampLength
  exact smul_zero' _

/-- The update the integration step applies to the velocity, written
out: `clampLength(velocity + acceleration, speed/2, speed)`. -/
theorem integrate_vel (speed : ℝ) (me : Boid) (a : V3) (ph : ℝ) :
    (integrate speed me a ph).vel
      = clampLength (me.vel + a) (speed * (1/2)) speed :=
  rfl

end Boids

/-- C2 (amended): after the integration step of a tick, an agent whose
updated pre-clamp velocity `velocity + acceleration` is not exactly the
zero vector satisfies `0.5 * maxSpeed ≤ |velocity| ≤ maxSpeed`, and the
clamp is a true vector-length clamp: the clamped velocity is a positive
scalar multiple of the pre-clamp velocity, so the direction is
preserved.  (When the pre-clamp velocity is exactly zero, the source's
`clampLength` leaves it at zero, below the claimed lower bound — see
the counterexample.) -/
theorem speed_bounds_after_clamp (s : ℝ) (me : Boids.Boid) (a : Boids.V3)
    (ph : ℝ) (hs : 0 < s) (h : me.vel + a ≠ 0) :
    (s * (1/2) ≤ Boids.len (Boids.integrate s me a ph).vel
      ∧ Boids.len (Boids.integrate s me a ph).vel ≤ s)
    ∧ ∃ c : ℝ, 0 < c
        ∧ (Boids.integrate s me a ph).vel = c • (me.vel + a) := by
  have hlo : 0 < s * (1/2) := by linarith
  obtain ⟨hlen, c, hc, heq⟩ :=
    Boids.clampLength_spec (me.vel + a) (s * (1/2)) s h hlo
  rw [Boids.integrate_vel, hlen, heq]
  refine ⟨⟨le_max_left _ _, ?_⟩, c, hc, rfl⟩
  apply max_le
  · linarith
  · exact min_le_left _ _

/-- Witness for C2's amended bound at a concrete agent of speed 2
moving at full speed with zero acceleration. -/
theorem speed_bounds_after_clamp_witness :
    ((2 : ℝ) * (1/2) ≤ Boids.len
        (Boids.integrate 2 ⟨0, ⟨2, 0, 0⟩, 0, 0⟩ 0 0).vel
      ∧ Boids.len (Boids.integrate 2 ⟨0, ⟨2, 0, 0⟩, 0, 0⟩ 0 0).vel ≤ 2)
    ∧ ∃ c : ℝ, 0 < c
        ∧ (Boids.integrate 2 ⟨0, ⟨2, 0, 0⟩, 0, 0⟩ 0 0).vel
          = c • ((⟨0, ⟨2, 0, 0⟩, 0, 0⟩ : Boids.Boid).vel + 0) :=
  speed_bounds_after_clamp 2 ⟨0, ⟨2, 0, 0⟩, 0, 0⟩ 0 0 (by norm_num)
    (by
      intro h0
      have := congrArg Boids.V3.x h0
      simp at this)

namespace Boids

/-- A poisoned accumulation stays poisoned through the rest of the
neighbor loop. -/
theorem foldl_accumStep_none (me : Boid) :
    ∀ l : List Boid, l.foldl (accumStep me) none = none := by
  intro l
  induction l with
  | nil => rfl
  | cons b rest ih => exact ih

/-- The neighbor loop starting from a live state is poisoned exactly
when some later neighbor coincides with the current agent: a coincident
neighbor has distance 0 (within the perception radius), making the
separation term divide by zero. -/
theorem foldl_accumStep_none_iff (me : Boid) :
    ∀ (l : List Boid) (s : V3 × V3 × V3 × ℕ),
      l.foldl (accumStep me) (some s) = none ↔ ∃ b ∈ l, b.pos = me.pos := by
  intro l
  induction l with
  | nil =>
    intro s
    simp
  | cons b rest ih =>
    intro s
    by_cases hb : b.pos = me.pos
    · have hd : distTo me.pos b.pos = 0 := by
        rw [distTo_eq_zero_iff]
        exact hb.symm
      have hstep : accumStep me (some s) b = none := by
        unfold accumStep
        rw [Option.bind]
        simp only [hd]
        simp
      rw [List.foldl_cons, hstep]
      simp [foldl_accumStep_none, hb]
    · have hd : distTo me.pos b.pos ≠ 0 := by
        rw [Ne, distTo_eq_zero_iff]
        intro he
        exact hb he.symm
      rw [List.foldl_cons]
      by_cases hlt : distTo me.pos b.pos < 5/2
      · have hstep : accumStep me (some s) b
            = some (s.1 + b.vel, s.2.1 + b.pos,
                s.2.2.1 + (1 / distTo me.pos b.pos) • (me.pos - b.pos),
                s.2.2.2 + 1) := by
          unfold accumStep
          rw [Option.bind]
          simp only []
          rw [if_pos hlt, if_neg hd]
        rw [hstep, ih]
        simp [hb]
      · have hstep : accumStep me (some s) b = some s := by
          unfold accumStep
          rw [Option.bind]
          simp only []
          rw [if_neg hlt]
        rw [hstep, ih]
        simp [hb]

end Boids

/-- C3 (amended): the `total > 0` guards do preclude division by zero in
the normalization steps, but the separation term's division by the
neighbor distance is unguarded: the per-agent neighbor accumulation
performs a division by zero exactly when another agent occupies the
current agent's exact position, and whenever no other agent does, the
whole per-agent tick is well defined (no NaN reaches the acceleration,
velocity or position). -/
theorem separation_division_guard :
    (∀ (me : Boids.Boid) (others : List Boids.Boid),
        Boids.accumulate me others = none ↔ ∃ b ∈ others, b.pos = me.pos)
    ∧ ∀ (cfg : Boids.Cfg) (boids : List Boids.Boid) (i : ℕ) (me : Boids.Boid),
        (∀ b ∈ boids.eraseIdx i, b.pos ≠ me.pos) →
        ∃ b2 : Boids.Boid, Boids.tickAgent cfg boids i me = some b2 := by
  have hiff : ∀ (me : Boids.Boid) (others : List Boids.Boid),
      Boids.accumulate me others = none ↔ ∃ b ∈ others, b.pos = me.pos := by
    intro me others
    exact Boids.foldl_accumStep_none_iff me others (0, 0, 0, 0)
  refine ⟨hiff, ?_⟩
  intro cfg boids i me h
  cases hacc : Boids.accumulate me (boids.eraseIdx i) with
  | none =>
    obtain ⟨b, hb, hbp⟩ := (hiff me (boids.eraseIdx i)).mp hacc
    exact absurd hbp (h b hb)
  | some s =>
    unfold Boids.tickAgent Boids.flockAccel
    rw [hacc]
    exact ⟨_, rfl⟩

namespace Boids

/-- Square root of 15625 (the squared distance 125 of the
counterexample agent from the group origin). -/
theorem sqrt_15625 : Real.sqrt 15625 = 125 := by
  rw [show (15625 : ℝ) = 125 ^ 2 by norm_num, Real.sqrt_sq (by norm_num)]

/-- Square root of 9 (the squared length of the unclamped centering
steering vector of the counterexample agent). -/
theorem sqrt_9 : Real.sqrt 9 = 3 := by
  rw [show (9 : ℝ) = 3 ^ 2 by norm_num, Real.sqrt_sq (by norm_num)]

/-- The flocking pass of the counterexample agent: no neighbors, and
the centering force (scaled by how far the agent strayed) comes out to
exactly minus its velocity. -/
theorem flockAccel_bFar :
    flockAccel cfgSolitary [bFar] 0 bFar = some ⟨-1, 0, 0⟩ := by
  unfold flockAccel cfgSolitary bFar
  simp only [List.eraseIdx, accumulate, List.foldl_nil, Option.map_some]
  simp [steer, clampLength, normalize, jsOr1, len, alignW, cohW, sepW,
    centW, sqrt_15625, sqrt_9]
  apply V3.ext' <;> simp [sqrt_9] <;> norm_num [min_def, sqrt_9]

/-- The full per-agent tick of the counterexample agent stops it dead:
the post-update velocity is the zero vector and `clampLength` leaves it
there. -/
theorem tickAgent_bFar :
    tickAgent cfgSolitary [bFar] 0 bFar = some bStopped := by
  unfold tickAgent
  rw [flockAccel_bFar]
  simp only [Option.map_some]
  unfold jellyUpdate cfgSolitary integrate bFar bStopped
  simp [clampLength, jsOr1, len]
  refine ⟨?_, ?_⟩ <;> apply V3.ext' <;> simp <;> norm_num

end Boids

/-- Counterexample to C2 as stated: a lone solitary agent of speed 2 at
distance 125 from the group origin, moving outward at the claimed lower
bound speed 1, is stopped exactly by the centering force in one tick:
after the tick its velocity is the zero vector, of length 0, strictly
below `0.5 * maxSpeed = 1`. -/
theorem speed_lower_bound_cex :
    Boids.tick Boids.cfgSolitary [Boids.bFar] = some [Boids.bStopped]
    ∧ Boids.len Boids.bStopped.vel = 0
    ∧ ¬ (Boids.cfgSolitary.speed * (1/2) ≤ Boids.len Boids.bStopped.vel) := by
  have hlen : Boids.len Boids.bStopped.vel = 0 := by
    unfold Boids.bStopped Boids.len
    norm_num
  refine ⟨?_, hlen, ?_⟩
  · unfold Boids.tick
    rw [show List.range [Boids.bFar].length = [0] from rfl]
    simp [Boids.tickLoop, Boids.tickAgent_bFar]
  · rw [hlen]
    unfold Boids.cfgSolitary
    norm_num

/-- Counterexample to C3 as stated: with two agents at the same
position, the separation term divides the zero away-vector by the zero
distance (a NaN in the source), so the tick is poisoned. -/
theorem nan_division_cex :
    Boids.tick Boids.cfgSchool [Boids.bTwin, Boids.bTwin] = none := by
  have hacc : Boids.accumulate Boids.bTwin [Boids.bTwin] = none := by
    unfold Boids.accumulate
    rw [Boids.foldl_accumStep_none_iff]
    exact ⟨Boids.bTwin, by simp, rfl⟩
  unfold Boids.tick
  rw [show List.range [Boids.bTwin, Boids.bTwin].length = [0, 1] from rfl]
  simp [Boids.tickLoop, Boids.tickAgent, Boids.flockAccel, List.eraseIdx,
    hacc]

namespace Boids

/-- The weighted normalize-and-scale term as a single positive scalar
multiple of the direction vector. -/
theorem normalize_smul_form (s k : ℝ) (u : V3) (hu : len u ≠ 0) :
    k • (s • normalize u) = (k * (s * (1 / len u))) • u := by
  unfold normalize jsOr1
  rw [if_neg hu, smul_smul', smul_smul', mul_assoc]

/-- Square root of 25 (for the jellyfish witness agent at distance 5
from the player). -/
theorem sqrt_25 : Real.sqrt 25 = 5 := by
  rw [show (25 : ℝ) = 5 ^ 2 by norm_num, Real.sqrt_sq (by norm_num)]

end Boids

/-- C8: for the reactive jellyfish species, on any tick with the player
within the detection distance 12: a swimming player adds to the
acceleration a positive multiple of the vector from the player to the
agent (a repulsion term away from the player — direction presupposes
the agent and the player do not coincide exactly), while a stationary
player adds a positive multiple of the vector from the agent to the
player only while the distance exceeds the comfortable minimum 3, and
leaves the acceleration untouched at distance 3 or below. -/
theorem jelly_reactive (cfg : Boids.Cfg) (me : Boids.Boid) (a : Boids.V3)
    (hj : cfg.isJelly = true) (hs : 0 < cfg.speed)
    (hnear : Boids.distTo me.pos cfg.player < 12) :
    (cfg.swimming = true → me.pos ≠ cfg.player →
        ∃ c : ℝ, 0 < c ∧ (Boids.jellyUpdate cfg me a).1
          = a + c • (me.pos - cfg.player))
    ∧ (cfg.swimming = false →
        (3 < Boids.distTo me.pos cfg.player →
          ∃ c : ℝ, 0 < c ∧ (Boids.jellyUpdate cfg me a).1
            = a + c • (cfg.player - me.pos))
        ∧ (Boids.distTo me.pos cfg.player ≤ 3 →
            (Boids.jellyUpdate cfg me a).1 = a)) := by
  simp only [Boids.jellyUpdate]
  rw [if_pos hj, if_pos hnear]
  constructor
  · intro hsw hne
    rw [if_pos hsw]
    have hL : Boids.len (me.pos - cfg.player) ≠ 0 := by
      intro h0
      exact hne ((Boids.distTo_eq_zero_iff me.pos cfg.player).mp h0)
    have hLpos : 0 < Boids.len (me.pos - cfg.player) :=
      lt_of_le_of_ne (Boids.len_nonneg _) (Ne.symm hL)
    refine ⟨5 * (cfg.speed * (1 / Boids.len (me.pos - cfg.player))), ?_, ?_⟩
    · positivity
    · rw [Boids.normalize_smul_form cfg.speed 5 _ hL]
  · intro hsw
    rw [if_neg (by simp [hsw])]
    constructor
    · intro h3d
      rw [if_pos h3d]
      have hL : Boids.len (cfg.player - me.pos) ≠ 0 := by
        intro h0
        have he : cfg.player = me.pos :=
          (Boids.distTo_eq_zero_iff cfg.player me.pos).mp h0
        rw [Boids.distTo_comm, he] at h3d
        rw [(Boids.distTo_eq_zero_iff me.pos me.pos).mpr rfl] at h3d
        linarith
      have hLpos : 0 < Boids.len (cfg.player - me.pos) :=
        lt_of_le_of_ne (Boids.len_nonneg _) (Ne.symm hL)
      refine ⟨(3/2) * (cfg.speed * (1 / Boids.len (cfg.player - me.pos))),
        ?_, ?_⟩
      · positivity
      · rw [Boids.normalize_smul_form cfg.speed (3/2) _ hL]
    · intro hle
      rw [if_neg (not_lt.mpr hle)]

/-- Witness for C8 at a concrete jellyfish configuration: player at the
origin, swimming, agent at distance 5. -/
theorem jelly_reactive_witness :
    let cfg : Boids.Cfg := ⟨Boids.Behavior.school, true, true, 0, 1⟩
    let me : Boids.Boid := ⟨⟨5, 0, 0⟩, 0, 0, 0⟩
    (cfg.swimming = true → me.pos ≠ cfg.player →
        ∃ c : ℝ, 0 < c ∧ (Boids.jellyUpdate cfg me 0).1
          = 0 + c • (me.pos - cfg.player))
    ∧ (cfg.swimming = false →
        (3 < Boids.distTo me.pos cfg.player →
          ∃ c : ℝ, 0 < c ∧ (Boids.jellyUpdate cfg me 0).1
            = 0 + c • (cfg.player - me.pos))
        ∧ (Boids.distTo me.pos cfg.player ≤ 3 →
            (Boids.jellyUpdate cfg me 0).1 = 0)) :=
  jelly_reactive ⟨Boids.Behavior.school, true, true, 0, 1⟩
    ⟨⟨5, 0, 0⟩, 0, 0, 0⟩ 0 rfl (by norm_num)
    (by
      unfold Boids.distTo Boids.len
      simp
      norm_num [Boids.sqrt_25])

/-- Counterexample to C6 as stated: on a 2-by-1 grid whose first cell
places a pillar ruin and whose second cell places a kelp column, the
generator appends no point of interest at all, so neither the ruins
occurrence nor the kelp occurrence got one. -/
theorem poi_missing_counterexample :
    (WorldGen.generateTerrain WorldGen.envPillarKelp 2 1).columnInstances ≠ []
    ∧ (WorldGen.generateTerrain WorldGen.envPillarKelp 2 1).kelpInstances ≠ []
    ∧ (WorldGen.generateTerrain WorldGen.envPillarKelp 2 1).mapPOIs = [] := by
  norm_num [WorldGen.generateTerrain, WorldGen.cellList, WorldGen.coords,
    List.product, WorldGen.runCells, WorldGen.processCell, WorldGen.cascade,
    WorldGen.ruinsBranch, WorldGen.kelpBranch, WorldGen.chestBranch,
    WorldGen.coralBranch, WorldGen.heightList, WorldGen.vegOf, WorldGen.pyOf,
    WorldGen.noiseOf, WorldGen.envPillarKelp, WorldGen.B, List.range_succ]

/-- C10: in every layout `generateTerrain` produces, the coral color
buffer holds exactly one r,g,b triple per coral placement instance,
stacked blocks included: `coralColors.length = 3 * coralInstances.length`. -/
theorem coral_colors_per_block (env : WorldGen.Env) (w d : ℤ) :
    (WorldGen.generateTerrain env w d).coralColors.length
      = 3 * (WorldGen.generateTerrain env w d).coralInstances.length := by
  unfold WorldGen.generateTerrain
  exact WorldGen.runCells_colors_len env 0 (WorldGen.cellList w d)

/-- C7: zero or negative grid dimensions yield the fully empty (but
well-formed) layout: every placement list, the interactable list and the
point-of-interest list are empty. -/
theorem degenerate_dims_empty (env : WorldGen.Env) (w d : ℤ)
    (h : w ≤ 0 ∨ d ≤ 0) :
    WorldGen.generateTerrain env w d
      = ⟨[], [], [], [], [], [], [], [], [], [], [], [], [], [], []⟩ := by
  unfold WorldGen.generateTerrain
  rw [WorldGen.cellList_degenerate w d h]
  rfl

/-- Witness for C7 at the concrete degenerate input `(0, 3)`. -/
theorem degenerate_dims_empty_witness :
    WorldGen.generateTerrain ⟨fun _ => 1/2, fun _ => 0, fun _ => 1, 3⟩ 0 3
      = ⟨[], [], [], [], [], [], [], [], [], [], [], [], [], [], []⟩ :=
  degenerate_dims_empty ⟨fun _ => 1/2, fun _ => 0, fun _ => 1, 3⟩ 0 3
    (Or.inl (le_refl 0))
